import Mathlib

/- Verification of the ml-pipeline-engine execution core.

   The repository ships `ml_pipeline_engine/types.py` (protocol and container
   declarations), `ml_pipeline_engine/dag/enums.py` (node/edge metadata field
   names) and two DAG tests.  The run manager itself is absent from the
   sources, so the scheduler below is modelled from the specification; each
   such definition carries a doc comment starting `Modelled from the spec:`.
   The result containers and the retry/recurrence data shapes are embedded
   from `types.py` directly. -/

abbrev NodeId := String

abbrev CaseLabel := String

/-- Python exception model: an exception value has a class name (`kind`,
    e.g. `"Exception"` or `"TypeError"`) and its payload arguments. -/
structure Err where
  kind : String
  args : String
  deriving DecidableEq

/-- Embedded from `types.py`: `CaseResult`, the value produced by the
    switch-case operator — a case label plus the selected node id. -/
structure CaseResult where
  label : CaseLabel
  node_id : NodeId
  deriving DecidableEq

/-- Values flowing between nodes: numbers, strings, `None`, and the switch
    operator's `CaseResult`. -/
inductive Val where
  | vInt (n : Int)
  | vStr (s : String)
  | vNone
  | caseRes (c : CaseResult)
  deriving DecidableEq

/-- Embedded from `types.py`: the `Recurrent` dataclass — a continuation
    signal carrying optional additional data. -/
structure Recurrent where
  data : Option Val
  deriving DecidableEq

/-- Embedded from `types.py`: `PipelineResult`, the container of a pipeline
    run outcome: pipeline id, final value (absent on failure) and an
    optional error. -/
structure PipelineResult where
  pipeline_id : String
  value : Option Val
  error : Option Err
  deriving DecidableEq

/-- Embedded from `types.py` lines 85-87: `raise_on_error` raises the stored
    error when it is not `None` and returns normally otherwise; raising is
    modelled by `Except`. -/
def PipelineResult.raise_on_error (r : PipelineResult) : Except Err Unit :=
  match r.error with
  | some e => Except.error e
  | none => Except.ok ()

/-- Modelled from the spec: terminal per-node state of one run — succeeded
    with a value, failed with an error, pruned (`SKIPPED`), or an unresolved
    one-of head that has no value. -/
inductive NStat where
  | ok (v : Val)
  | err (e : Err)
  | skipped
  | noval
  deriving DecidableEq

/-- Modelled from the spec (absent run manager): per-run mutable state — the
    artifact/status store keyed by node id plus the trace of body
    invocations (one entry per underlying invocation, retries included). -/
structure RunState where
  results : List (NodeId × NStat)
  invoked : List NodeId
  deriving DecidableEq

/-- Modelled from the spec / `EdgeField`: a dependency edge carrying the
    keyword-argument name, the switch marker and the case-branch label. -/
structure Edge where
  src : NodeId
  dst : NodeId
  kwarg_name : String
  is_switch : Bool
  case_branch : Option CaseLabel
  deriving DecidableEq

/-- Modelled from the spec / `NodeField` and `RetryProtocol` (absent run
    manager): a graph node bundling the callable body with the retry
    configuration (`attempts`, `delay`, `exceptions`, `use_default`,
    `get_default`) and the one-of metadata.  The body receives the attempt
    index and the keyword arguments, and either returns a value or raises.
    `required` lists the mandatory keyword parameters of the body (a call
    missing one raises `TypeError`, as in Python). -/
structure Node where
  body : Nat → List (String × Val) → Except Err Val
  required : List String
  attempts : Nat
  delay : Nat
  exceptions : Option (List String)
  use_default : Bool
  get_default : List (String × Val) → Val
  is_switch : Bool
  is_oneof_head : Bool
  oneof_nodes : List NodeId

/-- Modelled from the spec / `DAGLike`: node map, edge set, entry node and
    terminal (output) node. -/
structure Graph where
  node_map : List (NodeId × Node)
  edges : List Edge
  input_node : NodeId
  output_node : NodeId

def keys (g : Graph) : List NodeId :=
  g.node_map.map Prod.fst

def findNode (g : Graph) (nid : NodeId) : Option Node :=
  g.node_map.lookup nid

def incoming (g : Graph) (nid : NodeId) : List Edge :=
  g.edges.filter (fun e => e.dst == nid)

/-- Modelled from the spec §4.3: an exception is retryable iff its type is
    in the configured set, or the set is unspecified (meaning all
    exceptions retry). -/
def isRetryable (exceptions : Option (List String)) (e : Err) : Bool :=
  match exceptions with
  | none => true
  | some l => l.contains e.kind

/-- Modelled from the spec §4.2 step 5 (absent run manager): the retry
    driver.  Runs the body with the given number of attempts remaining,
    starting at attempt index `i`; re-invokes on a retryable exception while
    attempts remain.  Returns the number of underlying invocations and the
    final outcome. -/
def execRetryFrom (exc : Option (List String)) (body : Nat → Except Err Val) :
    Nat → Nat → Nat × Except Err Val
  | 0, _ => (0, Except.error ⟨"RuntimeError", "no attempts configured"⟩)
  | 1, i => (1, body i)
  | n+2, i =>
    match body i with
    | Except.ok v => (1, Except.ok v)
    | Except.error e =>
      if isRetryable exc e then
        let r0 := execRetryFrom exc body (n+1) (i+1)
        (r0.1 + 1, r0.2)
      else (1, Except.error e)

def execRetry (attempts : Nat) (exc : Option (List String))
    (body : Nat → Except Err Val) : Nat × Except Err Val :=
  execRetryFrom exc body attempts 0

/-- Modelled from the spec §4.2 step 5 / §4.3 (absent run manager): execute
    one node body under its retry policy; after attempts are exhausted,
    `use_default` substitutes `get_default` applied to the original
    invocation arguments, otherwise the node fails with the last error. -/
def execNode (node : Node) (kwargs : List (String × Val)) : Nat × NStat :=
  let r0 := execRetry node.attempts node.exceptions (fun i => node.body i kwargs)
  match r0.2 with
  | Except.ok v => (r0.1, NStat.ok v)
  | Except.error e =>
    if node.use_default then (r0.1, NStat.ok (node.get_default kwargs))
    else (r0.1, NStat.err e)

/-- Modelled from the spec §4.2 step 6: the outcome of one iteration of a
    recurrent sub-graph — the produced value plus an optional `Recurrent`
    continuation signal. -/
structure IterOut where
  value : Val
  next : Option Recurrent
  deriving DecidableEq

/-- Modelled from the spec §4.2 step 6 (absent run manager): the recurrence
    driver.  `runSub i d` re-executes the sub-graph anchored at the
    designated start node for iteration `i` with continuation data `d`
    threaded in.  The loop stops on a non-continuation outcome or when the
    configured maximum iteration count is reached; the last produced value
    becomes the node's resolved result.  Returns (iterations, value). -/
def recurLoop (runSub : Nat → Option Val → IterOut) :
    Nat → Nat → Option Val → Nat × Val
  | 0, i, _ => (i, Val.vNone)
  | rem+1, i, d =>
    let o := runSub i d
    match o.next with
    | none => (i + 1, o.value)
    | some rc =>
      match rem with
      | 0 => (i + 1, o.value)
      | r+1 => recurLoop runSub (r+1) (i + 1) rc.data

def recurrentResolve (max_iterations : Nat) (init : Option Val)
    (runSub : Nat → Option Val → IterOut) : Nat × Val :=
  recurLoop runSub max_iterations 0 init

/-- The continuation data handed to iteration `i` of a recurrent loop that
    starts from `init`: what the previous iteration's `Recurrent` signal
    carried. -/
def threadData (runSub : Nat → Option Val → IterOut) (init : Option Val) :
    Nat → Option Val
  | 0 => init
  | i+1 =>
    match (runSub i (threadData runSub init i)).next with
    | some rc => rc.data
    | none => none

/-- Modelled from the spec §4.2 step 3: whether a resolved incoming edge is
    dead — its producer was pruned, or it is a switch edge whose case-branch
    label does not match the producer's `CaseResult` label. -/
def edgeDeadP (p : Edge × NStat) : Bool :=
  match p.2 with
  | NStat.skipped => true
  | NStat.ok v =>
    p.1.is_switch &&
      (match v, p.1.case_branch with
       | Val.caseRes c, some L => c.label != L
       | _, _ => false)
  | _ => false

/-- First propagated failure among the resolved live edges, in edge
    order. -/
def firstErr : List (Edge × NStat) → Option Err
  | [] => none
  | (_, NStat.err e) :: _ => some e
  | _ :: rest => firstErr rest

/-- Keyword arguments supplied by the successfully resolved live edges. -/
def gatherKwargs (live : List (Edge × NStat)) : List (String × Val) :=
  live.filterMap (fun p =>
    match p.2 with
    | NStat.ok v => some (p.1.kwarg_name, v)
    | _ => none)

/-- A mandatory parameter of the body is not supplied (Python raises
    `TypeError` in that situation). -/
def missingRequired (node : Node) (kwargs : List (String × Val)) : Bool :=
  node.required.any (fun rq => !(kwargs.any (fun kv => kv.1 == rq)))

/-- The missing-input / type-contract error a consumer fails with when a
    mandatory argument is absent. -/
def missingInputErr (nid : NodeId) : Err :=
  ⟨"TypeError", nid ++ " missing a required input"⟩

def memoState (st : RunState) (nid : NodeId) (s : NStat) : RunState :=
  { st with results := (nid, s) :: st.results }

/-- Record a freshly computed status (idempotent: an already memoized node
    keeps its first status). -/
def finishWith (st : RunState) (nid : NodeId) (s : NStat) : NStat × RunState :=
  match List.lookup nid st.results with
  | some s₀ => (s₀, st)
  | none => (s, memoState st nid s)

/-- Record a freshly computed status together with the `k` body invocations
    that produced it. -/
def finishExec (st : RunState) (nid : NodeId) (k : Nat) (s : NStat) :
    NStat × RunState :=
  match List.lookup nid st.results with
  | some s₀ => (s₀, st)
  | none =>
    (s, ⟨(nid, s) :: st.results, st.invoked ++ List.replicate k nid⟩)

/-- Resolve the producers of a list of edges in order, returning each edge
    paired with its producer's status. -/
def resolveEdges (r : NodeId → RunState → NStat × RunState) :
    List Edge → RunState → List (Edge × NStat) × RunState
  | [], st => ([], st)
  | e :: rest, st =>
    let p := r e.src st
    let q := resolveEdges r rest p.2
    ((e, p.1) :: q.1, q.2)

/-- Modelled from the spec §4.2 step 4: try the ordered candidate list of a
    one-of head; stop at the first candidate that completes successfully.
    Returns the head's value (if any), the (candidate, status) pairs
    actually tried, and the resulting state. -/
def tryCands (r : NodeId → RunState → NStat × RunState) :
    List NodeId → RunState → Option Val × List (NodeId × NStat) × RunState
  | [], st => (none, [], st)
  | c :: rest, st =>
    let p := r c st
    match p.1 with
    | NStat.ok v => (some v, [(c, NStat.ok v)], p.2)
    | s =>
      let q := tryCands r rest p.2
      (q.1, (c, s) :: q.2.1, q.2.2)

/-- Modelled from the spec §4.2 (absent run manager): one demand-driven
    scheduling step for node `nid`, with `r` resolving the node's
    predecessors.  A memoized node returns its recorded status.  A one-of
    head resolves to its first successful candidate in declared order
    (`noval` when every tried candidate failed, `SKIPPED` when all of them
    were pruned).  An ordinary node is `SKIPPED` when it has incoming edges
    and every one of them is dead; otherwise the first failure among its
    live predecessors propagates, a missing mandatory input raises the
    type-contract error, and else the body runs under the retry policy.
    The entry node receives the pipeline's input keyword arguments. -/
def liveEdges (r : NodeId → RunState → NStat × RunState) (g : Graph)
    (nid : NodeId) (st : RunState) : List (Edge × NStat) :=
  ((resolveEdges r (incoming g nid) st).1).filter (fun p => !edgeDeadP p)

/-- The keyword arguments a node is invoked with: the pipeline's input
    keyword arguments for the entry node, otherwise the values supplied by
    the live, successfully resolved incoming edges. -/
def stepKwargs (g : Graph) (ikw : List (String × Val))
    (r : NodeId → RunState → NStat × RunState)
    (nid : NodeId) (st : RunState) : List (String × Val) :=
  if nid == g.input_node then ikw else gatherKwargs (liveEdges r g nid st)

def resolveStep (g : Graph) (ikw : List (String × Val))
    (r : NodeId → RunState → NStat × RunState)
    (nid : NodeId) (st : RunState) : NStat × RunState :=
  match List.lookup nid st.results with
  | some s => (s, st)
  | none =>
    match findNode g nid with
    | none => (NStat.err ⟨"KeyError", nid⟩, st)
    | some node =>
      if node.is_oneof_head then
        match (tryCands r node.oneof_nodes st).1 with
        | some v => finishWith ((tryCands r node.oneof_nodes st).2.2) nid (NStat.ok v)
        | none =>
          if (tryCands r node.oneof_nodes st).2.1.length != 0 &&
              ((tryCands r node.oneof_nodes st).2.1.all
                (fun p => p.2 == NStat.skipped)) then
            finishWith ((tryCands r node.oneof_nodes st).2.2) nid NStat.skipped
          else
            finishWith ((tryCands r node.oneof_nodes st).2.2) nid NStat.noval
      else
        if (incoming g nid).length != 0 && (liveEdges r g nid st).length == 0 then
          finishWith ((resolveEdges r (incoming g nid) st).2) nid NStat.skipped
        else
          match firstErr (liveEdges r g nid st) with
          | some e =>
            finishWith ((resolveEdges r (incoming g nid) st).2) nid (NStat.err e)
          | none =>
            if missingRequired node (stepKwargs g ikw r nid st) then
              finishWith ((resolveEdges r (incoming g nid) st).2) nid
                (NStat.err (missingInputErr nid))
            else
              finishExec ((resolveEdges r (incoming g nid) st).2) nid
                ((execNode node (stepKwargs g ikw r nid st)).1)
                ((execNode node (stepKwargs g ikw r nid st)).2)

/-- Modelled from the spec §4.2 (absent run manager): fuelled demand-driven
    resolution.  Exhausted fuel leaves a node unreached (pruned). -/
def resolve : Nat → Graph → List (String × Val) → NodeId → RunState →
    NStat × RunState
  | 0, _, _, _, st => (NStat.skipped, st)
  | fuel+1, g, ikw, nid, st => resolveStep g ikw (resolve fuel g ikw) nid st

/-- Mark every node of the graph that the run never reached as
    `SKIPPED`. -/
def addMissing : List NodeId → List (NodeId × NStat) → List (NodeId × NStat)
  | [], res => res
  | k :: ks, res =>
    addMissing ks
      (if (List.lookup k res).isSome then res else (k, NStat.skipped) :: res)

def markUnreached (g : Graph) (st : RunState) : RunState :=
  { st with results := addMissing (keys g) st.results }

/-- Modelled from the spec §2 / §4.5 (absent run manager): one pipeline
    run — resolve the terminal node from a fresh per-run state, then close
    out the per-node states. -/
def chartRunState (g : Graph) (fuel : Nat) (ikw : List (String × Val)) :
    NStat × RunState :=
  let pr := resolve fuel g ikw g.output_node ⟨[], []⟩
  (pr.1, markUnreached g pr.2)

/-- Modelled from the spec §4.5 (absent `PipelineChartLike.run`
    implementation): `run` wraps the outcome in a `PipelineResult` and never
    raises — a success yields the terminal node's value, any failure is
    delivered through the `error` field. -/
def chartRun (g : Graph) (fuel : Nat) (pid : String)
    (ikw : List (String × Val)) : PipelineResult :=
  match (chartRunState g fuel ikw).1 with
  | NStat.ok v => ⟨pid, some v, none⟩
  | NStat.err e => ⟨pid, none, some e⟩
  | NStat.skipped => ⟨pid, none, some ⟨"RuntimeError", "no pipeline result"⟩⟩
  | NStat.noval => ⟨pid, none, some ⟨"RuntimeError", "no pipeline result"⟩⟩

/-- One result store extends another: every recorded status is
    preserved. -/
def ResExt (a b : List (NodeId × NStat)) : Prop :=
  ∀ n s, List.lookup n a = some s → List.lookup n b = some s

/-- A switch edge whose case-branch label differs from the label of the
    `CaseResult` its producer resolved to. -/
def Mismatch (res : List (NodeId × NStat)) (e : Edge) : Prop :=
  e.is_switch = true ∧
    ∃ L c, e.case_branch = some L ∧
      List.lookup e.src res = some (NStat.ok (Val.caseRes c)) ∧ c.label ≠ L

/-- A node reachable via a live path: it has no dependencies at all, or
    some incoming edge comes from a live, unpruned producer and is not a
    mismatched switch edge (spec §4.2 step 3: pruning stops at any node
    also reachable via a live path). -/
inductive LiveAt (g : Graph) (res : List (NodeId × NStat)) : NodeId → Prop where
  | entry (n : NodeId) : incoming g n = [] → LiveAt g res n
  | step (n : NodeId) (e : Edge) (s : NStat) :
      e ∈ incoming g n → List.lookup e.src res = some s →
      s ≠ NStat.skipped → ¬ Mismatch res e → LiveAt g res e.src →
      LiveAt g res n

/-- A node reachable exclusively through pruned paths: it has incoming
    edges and each of them is either a mismatched switch edge or comes from
    a node that is itself dead (spec §4.2 step 3: the unmatched branch
    subtrees, recursively). -/
inductive DeadAt (g : Graph) (res : List (NodeId × NStat)) : NodeId → Prop where
  | mk (n : NodeId) :
      incoming g n ≠ [] →
      (∀ e ∈ incoming g n, ¬ Mismatch res e → DeadAt g res e.src) →
      DeadAt g res n

/-- Structural invariants of a builder-produced graph (spec §3): every
    edge's producer is a known node, every one-of candidate is a known node
    wired to its head by a plain (non-switch) edge, and a one-of head with
    no candidates has no dependencies. -/
def WFGraph (g : Graph) : Prop :=
  (∀ e ∈ g.edges, e.src ∈ keys g) ∧
  (∀ p ∈ g.node_map, p.2.is_oneof_head = true →
    (∀ c ∈ p.2.oneof_nodes, c ∈ keys g ∧
      ∃ e ∈ g.edges, e.src = c ∧ e.dst = p.1 ∧ e.is_switch = false) ∧
    (p.2.oneof_nodes = [] → incoming g p.1 = []))

def isRunStat : NStat → Bool
  | NStat.ok _ => true
  | NStat.err _ => true
  | _ => false

/-- Run-state invariant: a node whose body was invoked has a recorded
    run status (succeeded or failed), and every node recorded with a
    non-`SKIPPED` status is reachable via a live path. -/
def RunInv (g : Graph) (st : RunState) : Prop :=
  (∀ m ∈ st.invoked, ∃ s, List.lookup m st.results = some s ∧ isRunStat s = true) ∧
  (∀ m s, List.lookup m st.results = some s → s ≠ NStat.skipped →
    LiveAt g st.results m)

/-- A single-node pipeline: the node is both entry and terminal. -/
def singleGraph (node : Node) : Graph :=
  ⟨[("n", node)], [], "n", "n"⟩

/-- A two-node pipeline `a → b`: the producer `a` is the entry node, its
    result is passed to the terminal consumer `b` under keyword `x`. -/
def twoGraph (a b : Node) : Graph :=
  ⟨[("a", a), ("b", b)], [⟨"a", "b", "x", false, none⟩], "a", "b"⟩

/-- An ordinary processor node with the given body and mandatory
    parameters (single attempt, no default). -/
def mkNode (body : Nat → List (String × Val) → Except Err Val)
    (required : List String) : Node :=
  ⟨body, required, 1, 0, none, false, fun _ => Val.vNone, false, false, []⟩

/-- A one-of head over the given ordered candidate list. -/
def mkHead (cands : List NodeId) : Node :=
  ⟨fun _ _ => Except.ok Val.vNone, [], 1, 0, none, false, fun _ => Val.vNone,
   false, true, cands⟩

/-- A switch node producing the given `CaseResult`. -/
def mkSwitch (c : CaseResult) : Node :=
  ⟨fun _ _ => Except.ok (Val.caseRes c), [], 1, 0, none, false,
   fun _ => Val.vNone, true, false, []⟩

/-- Example graph for the one-of failure scenario (mirrors
    `test_input_one_of_fails_dag`): two candidate features both raise, the
    one-of head feeds the vectorizer's mandatory `feature_value`
    parameter. -/
def gOneOfFails : Graph :=
  ⟨[("input", mkNode (fun _ _ => Except.ok Val.vNone) []),
    ("f1", mkNode (fun _ _ => Except.error ⟨"Exception", ""⟩) []),
    ("f2", mkNode (fun _ _ => Except.error ⟨"Exception", ""⟩) []),
    ("oneof", mkHead ["f1", "f2"]),
    ("vectorizer", mkNode (fun _ _ => Except.ok Val.vNone) ["feature_value"])],
   [⟨"input", "f1", "inp", false, none⟩,
    ⟨"input", "f2", "inp", false, none⟩,
    ⟨"f1", "oneof", "c1", false, none⟩,
    ⟨"f2", "oneof", "c2", false, none⟩,
    ⟨"oneof", "vectorizer", "feature_value", false, none⟩],
   "input", "vectorizer"⟩

/-- Example graph for switch pruning: the switch `s` selects label `"a"`,
    branch `x` (label `"a"`) and branch `y` (label `"b"`) are joined by a
    one-of head feeding the terminal consumer.  `y` is reachable only
    through the unmatched switch edge. -/
def gSwitch : Graph :=
  ⟨[("i", mkNode (fun _ _ => Except.ok Val.vNone) []),
    ("s", mkSwitch ⟨"a", "x"⟩),
    ("x", mkNode (fun _ _ => Except.ok (Val.vInt 1)) []),
    ("y", mkNode (fun _ _ => Except.ok (Val.vInt 2)) []),
    ("h", mkHead ["x", "y"]),
    ("o", mkNode (fun _ _ => Except.ok (Val.vInt 9)) ["f"])],
   [⟨"i", "s", "inp", false, none⟩,
    ⟨"s", "x", "sw", true, some "a"⟩,
    ⟨"s", "y", "sw", true, some "b"⟩,
    ⟨"x", "h", "cx", false, none⟩,
    ⟨"y", "h", "cy", false, none⟩,
    ⟨"h", "o", "f", false, none⟩],
   "i", "o"⟩

/-- Example graph for one-of ordering: candidate `c1` fails, `c2`
    succeeds, `c3` comes after the first success. -/
def gOneOfOrder : Graph :=
  ⟨[("c1", mkNode (fun _ _ => Except.error ⟨"Exception", ""⟩) []),
    ("c2", mkNode (fun _ _ => Except.ok (Val.vInt 5)) []),
    ("c3", mkNode (fun _ _ => Except.error ⟨"Exception", ""⟩) []),
    ("h", mkHead ["c1", "c2", "c3"]),
    ("out", mkNode (fun _ _ => Except.ok Val.vNone) ["f"])],
   [⟨"c1", "h", "k1", false, none⟩,
    ⟨"c2", "h", "k2", false, none⟩,
    ⟨"c3", "h", "k3", false, none⟩,
    ⟨"h", "out", "f", false, none⟩],
   "c1", "out"⟩

theorem lookup_cons_self {β : Type} (n : NodeId) (s : β) (res : List (NodeId × β)) :
    List.lookup n ((n, s) :: res) = some s := by
  simp [List.lookup]

theorem lookup_cons_ne {β : Type} {m n : NodeId} (s : β) (res : List (NodeId × β))
    (h : m ≠ n) : List.lookup m ((n, s) :: res) = List.lookup m res := by
  simp [List.lookup, beq_false_of_ne h]

theorem mem_of_lookup {β : Type} {k : NodeId} {l : List (NodeId × β)} {v : β}
    (h : List.lookup k l = some v) : (k, v) ∈ l := by
  induction l with
  | nil => simp [List.lookup] at h
  | cons a rest ih =>
    rw [List.lookup] at h
    rcases hb : (k == a.1) with _ | _
    · rw [hb] at h
      exact List.mem_cons_of_mem _ (ih h)
    · rw [hb] at h
      cases h
      have hk : k = a.1 := eq_of_beq hb
      subst hk
      exact List.mem_cons_self _ _

theorem lookup_isSome_of_mem {β : Type} {k : NodeId} {l : List (NodeId × β)}
    (hmem : k ∈ l.map Prod.fst) : (List.lookup k l).isSome = true := by
  induction l with
  | nil => simp at hmem
  | cons a rest ih =>
    rw [List.lookup]
    rcases hb : (k == a.1) with _ | _
    · simp only [hb]
      apply ih
      rw [List.map_cons] at hmem
      rcases List.mem_cons.mp hmem with h1 | h1
      · exact absurd h1 (ne_of_beq_false hb)
      · exact h1
    · simp [hb]

theorem not_mem_of_lookup_none {β : Type} {k : NodeId} {l : List (NodeId × β)}
    (h : List.lookup k l = none) : k ∉ l.map Prod.fst := by
  intro hmem
  have h2 := lookup_isSome_of_mem hmem
  rw [h] at h2
  cases h2

theorem resExt_refl (res : List (NodeId × NStat)) : ResExt res res :=
  fun _ _ h => h

theorem resExt_trans {a b c : List (NodeId × NStat)} (h1 : ResExt a b)
    (h2 : ResExt b c) : ResExt a c :=
  fun n s h => h2 n s (h1 n s h)

theorem resExt_cons {res : List (NodeId × NStat)} {nid : NodeId} (s : NStat)
    (h : List.lookup nid res = none) : ResExt res ((nid, s) :: res) := by
  intro m t hm
  by_cases hmn : m = nid
  · subst hmn
    rw [hm] at h
    cases h
  · rw [lookup_cons_ne _ _ hmn]
    exact hm

theorem isRunStat_ne_skipped {s : NStat} (h : isRunStat s = true) :
    s ≠ NStat.skipped := by
  intro he
  subst he
  simp [isRunStat] at h

theorem mismatch_of_ext {res res' : List (NodeId × NStat)} {e : Edge} {s : NStat}
    (hext : ResExt res res') (hs : List.lookup e.src res = some s)
    (hm : Mismatch res' e) : Mismatch res e := by
  obtain ⟨hsw, L, c, hcb, hlk, hne⟩ := hm
  have := hext e.src s hs
  rw [this] at hlk
  cases hlk
  exact ⟨hsw, L, c, hcb, hs, hne⟩

theorem liveAt_mono {g : Graph} {res res' : List (NodeId × NStat)} {n : NodeId}
    (hext : ResExt res res') (h : LiveAt g res n) : LiveAt g res' n := by
  induction h with
  | entry n h0 => exact LiveAt.entry n h0
  | step n e s he hs hsk hm _ ih =>
    exact LiveAt.step n e s he (hext e.src s hs) hsk
      (fun hm' => hm (mismatch_of_ext hext hs hm')) ih

theorem liveAt_not_deadAt {g : Graph} {res : List (NodeId × NStat)} {n : NodeId}
    (h : LiveAt g res n) : ¬ DeadAt g res n := by
  induction h with
  | entry n h0 =>
    intro hd
    cases hd with
    | mk _ hne _ => exact hne h0
  | step n e s he hs hsk hm _ ih =>
    intro hd
    cases hd with
    | mk _ _ hall => exact ih (hall e he hm)

/-- The contract a resolver maintains: it only extends the result store,
    any non-pruned status it returns for a known node is recorded, and it
    preserves the run-state invariant. -/
def RGood (g : Graph) (r : NodeId → RunState → NStat × RunState) : Prop :=
  ∀ nid st,
    ResExt st.results ((r nid st).2).results ∧
    ((r nid st).1 ≠ NStat.skipped → nid ∈ keys g →
      List.lookup nid ((r nid st).2).results = some ((r nid st).1)) ∧
    (RunInv g st → RunInv g ((r nid st).2))

theorem finishWith_ext (st : RunState) (nid : NodeId) (s : NStat) :
    ResExt st.results ((finishWith st nid s).2).results := by
  unfold finishWith
  split
  · exact resExt_refl _
  · exact resExt_cons s (by assumption)

theorem finishWith_memo (st : RunState) (nid : NodeId) (s : NStat) :
    List.lookup nid ((finishWith st nid s).2).results =
      some ((finishWith st nid s).1) := by
  unfold finishWith
  split
  · assumption
  · exact lookup_cons_self nid s st.results

theorem finishWith_inv {g : Graph} {st : RunState} {nid : NodeId} {s : NStat}
    (hLive : s ≠ NStat.skipped → LiveAt g st.results nid)
    (hinv : RunInv g st) : RunInv g ((finishWith st nid s).2) := by
  unfold finishWith memoState
  split
  · exact hinv
  · rename_i hnone
    have hext : ResExt st.results ((nid, s) :: st.results) := resExt_cons s hnone
    constructor
    · intro m hm
      obtain ⟨s', hlk, hrun⟩ := hinv.1 m hm
      exact ⟨s', hext m s' hlk, hrun⟩
    · intro m s' hlk hsk
      by_cases hmn : m = nid
      · subst hmn
        rw [lookup_cons_self] at hlk
        cases hlk
        exact liveAt_mono hext (hLive hsk)
      · rw [lookup_cons_ne _ _ hmn] at hlk
        exact liveAt_mono hext (hinv.2 m s' hlk hsk)

theorem finishExec_ext (st : RunState) (nid : NodeId) (k : Nat) (s : NStat) :
    ResExt st.results ((finishExec st nid k s).2).results := by
  unfold finishExec
  split
  · exact resExt_refl _
  · exact resExt_cons s (by assumption)

theorem finishExec_memo (st : RunState) (nid : NodeId) (k : Nat) (s : NStat) :
    List.lookup nid ((finishExec st nid k s).2).results =
      some ((finishExec st nid k s).1) := by
  unfold finishExec
  split
  · assumption
  · exact lookup_cons_self nid s st.results

theorem finishExec_inv {g : Graph} {st : RunState} {nid : NodeId} {k : Nat}
    {s : NStat} (hLive : s ≠ NStat.skipped → LiveAt g st.results nid)
    (hrun : isRunStat s = true) (hinv : RunInv g st) :
    RunInv g ((finishExec st nid k s).2) := by
  unfold finishExec
  split
  · exact hinv
  · rename_i hnone
    have hext : ResExt st.results ((nid, s) :: st.results) := resExt_cons s hnone
    constructor
    · intro m hm
      rcases List.mem_append.mp hm with h1 | h1
      · obtain ⟨s', hlk, hrun'⟩ := hinv.1 m h1
        exact ⟨s', hext m s' hlk, hrun'⟩
      · have : m = nid := List.eq_of_mem_replicate h1
        subst this
        exact ⟨s, lookup_cons_self _ _ _, hrun⟩
    · intro m s' hlk hsk
      by_cases hmn : m = nid
      · subst hmn
        rw [lookup_cons_self] at hlk
        cases hlk
        exact liveAt_mono hext (hLive hsk)
      · rw [lookup_cons_ne _ _ hmn] at hlk
        exact liveAt_mono hext (hinv.2 m s' hlk hsk)

theorem execNode_isRun (node : Node) (kwargs : List (String × Val)) :
    isRunStat (execNode node kwargs).2 = true := by
  simp only [execNode]
  cases (execRetry node.attempts node.exceptions fun i => node.body i kwargs).2 with
  | ok v => rfl
  | error e =>
    by_cases hd : node.use_default
    · simp [hd, isRunStat]
    · simp [hd, isRunStat]

theorem resolveEdges_ext {g : Graph} {r : NodeId → RunState → NStat × RunState}
    (hr : RGood g r) :
    ∀ (edges : List Edge) (st : RunState),
      ResExt st.results ((resolveEdges r edges st).2).results := by
  intro edges
  induction edges with
  | nil => intro st; exact resExt_refl _
  | cons e rest ih =>
    intro st
    exact resExt_trans (hr e.src st).1 (ih (r e.src st).2)

theorem resolveEdges_inv {g : Graph} {r : NodeId → RunState → NStat × RunState}
    (hr : RGood g r) :
    ∀ (edges : List Edge) (st : RunState), RunInv g st →
      RunInv g ((resolveEdges r edges st).2) := by
  intro edges
  induction edges with
  | nil => intro st h; exact h
  | cons e rest ih =>
    intro st h
    exact ih (r e.src st).2 ((hr e.src st).2.2 h)

theorem resolveEdges_pairs {g : Graph} {r : NodeId → RunState → NStat × RunState}
    (hr : RGood g r) :
    ∀ (edges : List Edge) (st : RunState),
      ∀ p ∈ (resolveEdges r edges st).1,
        p.1 ∈ edges ∧ (p.2 ≠ NStat.skipped → p.1.src ∈ keys g →
          List.lookup p.1.src ((resolveEdges r edges st).2).results = some p.2) := by
  intro edges
  induction edges with
  | nil => intro st p hp; cases hp
  | cons e rest ih =>
    intro st p hp
    rw [resolveEdges] at hp ⊢
    rcases List.mem_cons.mp hp with h1 | h1
    · subst h1
      refine ⟨List.mem_cons_self _ _, fun hsk hkey => ?_⟩
      have hmemo := (hr e.src st).2.1 hsk hkey
      exact resolveEdges_ext hr rest (r e.src st).2 _ _ hmemo
    · obtain ⟨hmem, hlk⟩ := ih (r e.src st).2 p h1
      exact ⟨List.mem_cons_of_mem _ hmem, hlk⟩

theorem tryCands_ext {g : Graph} {r : NodeId → RunState → NStat × RunState}
    (hr : RGood g r) :
    ∀ (cs : List NodeId) (st : RunState),
      ResExt st.results ((tryCands r cs st).2.2).results := by
  intro cs
  induction cs with
  | nil => intro st; exact resExt_refl _
  | cons c rest ih =>
    intro st
    rw [tryCands]
    cases h : (r c st).1 with
    | ok v => exact (hr c st).1
    | err e => exact resExt_trans (hr c st).1 (ih (r c st).2)
    | skipped => exact resExt_trans (hr c st).1 (ih (r c st).2)
    | noval => exact resExt_trans (hr c st).1 (ih (r c st).2)

theorem tryCands_inv {g : Graph} {r : NodeId → RunState → NStat × RunState}
    (hr : RGood g r) :
    ∀ (cs : List NodeId) (st : RunState), RunInv g st →
      RunInv g ((tryCands r cs st).2.2) := by
  intro cs
  induction cs with
  | nil => intro st h; exact h
  | cons c rest ih =>
    intro st hinv
    rw [tryCands]
    cases h : (r c st).1 with
    | ok v => exact (hr c st).2.2 hinv
    | err e => exact ih (r c st).2 ((hr c st).2.2 hinv)
    | skipped => exact ih (r c st).2 ((hr c st).2.2 hinv)
    | noval => exact ih (r c st).2 ((hr c st).2.2 hinv)

theorem tryCands_pairs {g : Graph} {r : NodeId → RunState → NStat × RunState}
    (hr : RGood g r) :
    ∀ (cs : List NodeId) (st : RunState),
      ∀ p ∈ (tryCands r cs st).2.1,
        p.1 ∈ cs ∧ (p.2 ≠ NStat.skipped → p.1 ∈ keys g →
          List.lookup p.1 ((tryCands r cs st).2.2).results = some p.2) := by
  intro cs
  induction cs with
  | nil => intro st p hp; cases hp
  | cons c rest ih =>
    intro st p hp
    rw [tryCands] at hp ⊢
    cases h : (r c st).1 with
    | ok v =>
      rw [h] at hp
      rcases List.mem_cons.mp hp with h1 | h1
      · subst h1
        refine ⟨List.mem_cons_self _ _, fun hsk hkey => ?_⟩
        have := (hr c st).2.1 (by rw [h]; exact hsk) hkey
        rw [h] at this
        exact this
      · cases h1
    | err e =>
      rw [h] at hp
      rcases List.mem_cons.mp hp with h1 | h1
      · subst h1
        refine ⟨List.mem_cons_self _ _, fun hsk hkey => ?_⟩
        have hm := (hr c st).2.1 (by rw [h]; exact hsk) hkey
        rw [h] at hm
        exact tryCands_ext hr rest (r c st).2 _ _ hm
      · obtain ⟨hmem, hlk⟩ := ih (r c st).2 p h1
        exact ⟨List.mem_cons_of_mem _ hmem, hlk⟩
    | skipped =>
      rw [h] at hp
      rcases List.mem_cons.mp hp with h1 | h1
      · subst h1
        exact ⟨List.mem_cons_self _ _, fun hsk _ => absurd rfl hsk⟩
      · obtain ⟨hmem, hlk⟩ := ih (r c st).2 p h1
        exact ⟨List.mem_cons_of_mem _ hmem, hlk⟩
    | noval =>
      rw [h] at hp
      rcases List.mem_cons.mp hp with h1 | h1
      · subst h1
        refine ⟨List.mem_cons_self _ _, fun hsk hkey => ?_⟩
        have hm := (hr c st).2.1 (by rw [h]; exact hsk) hkey
        rw [h] at hm
        exact tryCands_ext hr rest (r c st).2 _ _ hm
      · obtain ⟨hmem, hlk⟩ := ih (r c st).2 p h1
        exact ⟨List.mem_cons_of_mem _ hmem, hlk⟩

theorem tryCands_none_map {r : NodeId → RunState → NStat × RunState} :
    ∀ (cs : List NodeId) (st : RunState), (tryCands r cs st).1 = none →
      ((tryCands r cs st).2.1).map Prod.fst = cs := by
  intro cs
  induction cs with
  | nil => intro st _; rfl
  | cons c rest ih =>
    intro st hnone
    rw [tryCands] at hnone ⊢
    cases h : (r c st).1 with
    | ok v => rw [h] at hnone; cases hnone
    | err e =>
      rw [h] at hnone
      rw [List.map_cons, ih (r c st).2 hnone]
    | skipped =>
      rw [h] at hnone
      rw [List.map_cons, ih (r c st).2 hnone]
    | noval =>
      rw [h] at hnone
      rw [List.map_cons, ih (r c st).2 hnone]

theorem tryCands_some_pair {r : NodeId → RunState → NStat × RunState} :
    ∀ (cs : List NodeId) (st : RunState) (v : Val),
      (tryCands r cs st).1 = some v →
      ∃ p ∈ (tryCands r cs st).2.1, p.2 = NStat.ok v := by
  intro cs
  induction cs with
  | nil => intro st v h; cases h
  | cons c rest ih =>
    intro st v hsome
    rw [tryCands] at hsome ⊢
    cases h : (r c st).1 with
    | ok w =>
      rw [h] at hsome
      cases hsome
      exact ⟨(c, NStat.ok v), List.mem_cons_self _ _, rfl⟩
    | err e =>
      rw [h] at hsome
      obtain ⟨p, hmem, hp⟩ := ih (r c st).2 v hsome
      exact ⟨p, List.mem_cons_of_mem _ hmem, hp⟩
    | skipped =>
      rw [h] at hsome
      obtain ⟨p, hmem, hp⟩ := ih (r c st).2 v hsome
      exact ⟨p, List.mem_cons_of_mem _ hmem, hp⟩
    | noval =>
      rw [h] at hsome
      obtain ⟨p, hmem, hp⟩ := ih (r c st).2 v hsome
      exact ⟨p, List.mem_cons_of_mem _ hmem, hp⟩

theorem live_of_main {g : Graph} {r : NodeId → RunState → NStat × RunState}
    (hwf : WFGraph g) (hr : RGood g r) (nid : NodeId) (st : RunState)
    (hinv : RunInv g st)
    (hDead : ¬ (((incoming g nid).length != 0 &&
      (((resolveEdges r (incoming g nid) st).1.filter
        (fun p => !edgeDeadP p)).length == 0)) = true)) :
    LiveAt g ((resolveEdges r (incoming g nid) st).2).results nid := by
  have hab := (Bool.not_eq_true _).mp hDead
  rcases Bool.and_eq_false_iff.mp hab with hA | hB
  · exact LiveAt.entry nid (List.length_eq_zero.mp (bne_eq_false_iff_eq.mp hA))
  · have hne : (resolveEdges r (incoming g nid) st).1.filter
        (fun p => !edgeDeadP p) ≠ [] := by
      intro hc
      rw [hc] at hB
      simp at hB
    obtain ⟨p, hp⟩ := List.exists_mem_of_ne_nil _ hne
    have hpl := List.mem_filter.mp hp
    have hdead_false : edgeDeadP p = false := by
      have := hpl.2
      cases hdp : edgeDeadP p
      · rfl
      · rw [hdp] at this; cases this
    obtain ⟨hmem_e, hlk⟩ := resolveEdges_pairs hr _ _ p hpl.1
    have hp2 : p.2 ≠ NStat.skipped := by
      intro hc
      rw [edgeDeadP, hc] at hdead_false
      cases hdead_false
    have hsrckey : p.1.src ∈ keys g := by
      have hedge : p.1 ∈ g.edges := (List.mem_filter.mp hmem_e).1
      exact hwf.1 p.1 hedge
    have hlk' := hlk hp2 hsrckey
    have hinv2 := resolveEdges_inv hr (incoming g nid) st hinv
    have hlivesrc := hinv2.2 p.1.src p.2 hlk' hp2
    refine LiveAt.step nid p.1 p.2 hmem_e hlk' hp2 ?_ hlivesrc
    rintro ⟨hsw, L, c, hcb, hlkm, hne2⟩
    rw [hlk'] at hlkm
    have hp2eq : p.2 = NStat.ok (Val.caseRes c) := Option.some.inj hlkm
    rw [edgeDeadP, hp2eq, hsw, hcb] at hdead_false
    simp at hdead_false
    exact hne2 hdead_false

theorem live_of_head_pair {g : Graph} {r : NodeId → RunState → NStat × RunState}
    (hwf : WFGraph g) (hr : RGood g r) {nid : NodeId} {node : Node}
    (hfind : findNode g nid = some node) (hHead : node.is_oneof_head = true)
    {st : RunState} (hinv : RunInv g st) {p : NodeId × NStat}
    (hpmem : p ∈ (tryCands r node.oneof_nodes st).2.1)
    (hp2 : p.2 ≠ NStat.skipped) :
    LiveAt g ((tryCands r node.oneof_nodes st).2.2).results nid := by
  obtain ⟨hcand, hlk⟩ := tryCands_pairs hr _ _ p hpmem
  have hmem_nm : (nid, node) ∈ g.node_map := mem_of_lookup hfind
  obtain ⟨hc_all, _⟩ := hwf.2 (nid, node) hmem_nm hHead
  obtain ⟨hckey, e, hemem, hesrc, hedst, hesw⟩ := hc_all p.1 hcand
  have hlk' := hlk hp2 hckey
  have hinv2 := tryCands_inv hr node.oneof_nodes st hinv
  have hlivec := hinv2.2 p.1 p.2 hlk' hp2
  refine LiveAt.step nid e p.2 ?_ ?_ hp2 ?_ ?_
  · exact List.mem_filter.mpr ⟨hemem, by simp [hedst]⟩
  · rw [hesrc]; exact hlk'
  · rintro ⟨hsw, _⟩
    rw [hesw] at hsw
    cases hsw
  · rw [hesrc]; exact hlivec

theorem resolveStep_good (g : Graph) (ikw : List (String × Val))
    (hwf : WFGraph g) {r : NodeId → RunState → NStat × RunState}
    (hr : RGood g r) : RGood g (resolveStep g ikw r) := by
  intro nid st
  rw [resolveStep]
  split
  · rename_i s h1
    exact ⟨resExt_refl _, fun _ _ => h1, fun h => h⟩
  · rename_i h1
    split
    · rename_i h2
      exact ⟨resExt_refl _,
        fun _ hkey => absurd hkey (not_mem_of_lookup_none h2),
        fun h => h⟩
    · rename_i node h2
      split
      · rename_i hHead
        split
        · rename_i v h3
          refine ⟨resExt_trans (tryCands_ext hr _ _) (finishWith_ext _ _ _),
            fun _ _ => finishWith_memo _ _ _, fun hinv => ?_⟩
          apply finishWith_inv ?_ (tryCands_inv hr _ _ hinv)
          intro _
          obtain ⟨p, hpmem, hpok⟩ := tryCands_some_pair _ _ _ h3
          exact live_of_head_pair hwf hr h2 hHead hinv hpmem
            (by rw [hpok]; intro hc; cases hc)
        · rename_i h3
          split
          · refine ⟨resExt_trans (tryCands_ext hr _ _) (finishWith_ext _ _ _),
              fun _ _ => finishWith_memo _ _ _, fun hinv => ?_⟩
            exact finishWith_inv (fun hsk => absurd rfl hsk)
              (tryCands_inv hr _ _ hinv)
          · rename_i hAll
            refine ⟨resExt_trans (tryCands_ext hr _ _) (finishWith_ext _ _ _),
              fun _ _ => finishWith_memo _ _ _, fun hinv => ?_⟩
            apply finishWith_inv ?_ (tryCands_inv hr _ _ hinv)
            intro _
            have hab := (Bool.not_eq_true _).mp hAll
            rcases Bool.and_eq_false_iff.mp hab with hA | hB
            · have hpairs : (tryCands r node.oneof_nodes st).2.1 = [] :=
                List.length_eq_zero.mp (bne_eq_false_iff_eq.mp hA)
              have hcands : node.oneof_nodes = [] := by
                have hmap := tryCands_none_map node.oneof_nodes st h3
                rw [hpairs] at hmap
                exact hmap.symm
              have hmem_nm : (nid, node) ∈ g.node_map := mem_of_lookup h2
              obtain ⟨_, hemp⟩ := hwf.2 (nid, node) hmem_nm hHead
              exact LiveAt.entry nid (hemp hcands)
            · have hex : ∃ p ∈ (tryCands r node.oneof_nodes st).2.1,
                  (p.2 == NStat.skipped) = false := by
                simpa using hB
              obtain ⟨p, hpmem, hpne⟩ := hex
              exact live_of_head_pair hwf hr h2 hHead hinv hpmem
                (ne_of_beq_false hpne)
      · rename_i hHead
        split
        · exact ⟨resExt_trans (resolveEdges_ext hr _ _) (finishWith_ext _ _ _),
            fun _ _ => finishWith_memo _ _ _,
            fun hinv => finishWith_inv (fun hsk => absurd rfl hsk)
              (resolveEdges_inv hr _ _ hinv)⟩
        · rename_i hDead
          split
          · refine ⟨resExt_trans (resolveEdges_ext hr _ _) (finishWith_ext _ _ _),
              fun _ _ => finishWith_memo _ _ _, fun hinv => ?_⟩
            exact finishWith_inv (fun _ => live_of_main hwf hr nid st hinv hDead)
              (resolveEdges_inv hr _ _ hinv)
          · rename_i h4
            split
            · refine ⟨resExt_trans (resolveEdges_ext hr _ _) (finishWith_ext _ _ _),
                fun _ _ => finishWith_memo _ _ _, fun hinv => ?_⟩
              exact finishWith_inv (fun _ => live_of_main hwf hr nid st hinv hDead)
                (resolveEdges_inv hr _ _ hinv)
            · refine ⟨resExt_trans (resolveEdges_ext hr _ _) (finishExec_ext _ _ _ _),
                fun _ _ => finishExec_memo _ _ _ _, fun hinv => ?_⟩
              exact finishExec_inv (fun _ => live_of_main hwf hr nid st hinv hDead)
                (execNode_isRun _ _) (resolveEdges_inv hr _ _ hinv)

theorem resolve_good (g : Graph) (ikw : List (String × Val))
    (hwf : WFGraph g) : ∀ fuel, RGood g (resolve fuel g ikw)
  | 0 => by
    intro nid st
    exact ⟨resExt_refl _, fun h _ => absurd rfl h, fun h => h⟩
  | fuel+1 => resolveStep_good g ikw hwf (resolve_good g ikw hwf fuel)

theorem addMissing_ext : ∀ (ks : List NodeId) (res : List (NodeId × NStat)),
    ResExt res (addMissing ks res) := by
  intro ks
  induction ks with
  | nil => intro res; exact resExt_refl _
  | cons k ks ih =>
    intro res
    rw [addMissing]
    split
    · exact ih res
    · rename_i hns
      have hnone : List.lookup k res = none := by
        cases h : List.lookup k res with
        | none => rfl
        | some t => rw [h] at hns; exact absurd rfl hns
      exact resExt_trans (resExt_cons NStat.skipped hnone) (ih _)

theorem addMissing_covers : ∀ (ks : List NodeId) (res : List (NodeId × NStat))
    (k : NodeId), k ∈ ks → ∃ s, List.lookup k (addMissing ks res) = some s := by
  intro ks
  induction ks with
  | nil => intro res k hk; cases hk
  | cons k' ks ih =>
    intro res k hk
    rw [addMissing]
    rcases List.mem_cons.mp hk with h1 | h1
    · subst h1
      split
      · rename_i hs
        obtain ⟨s, hlk⟩ := Option.isSome_iff_exists.mp hs
        exact ⟨s, addMissing_ext ks res k s hlk⟩
      · exact ⟨NStat.skipped,
          addMissing_ext ks _ k NStat.skipped (lookup_cons_self _ _ _)⟩
    · split
      · exact ih _ k h1
      · exact ih _ k h1

theorem addMissing_new_skipped : ∀ (ks : List NodeId)
    (res : List (NodeId × NStat)) (m : NodeId) (s : NStat),
    List.lookup m (addMissing ks res) = some s →
    List.lookup m res = some s ∨ s = NStat.skipped := by
  intro ks
  induction ks with
  | nil => intro res m s h; exact Or.inl h
  | cons k ks ih =>
    intro res m s h
    rw [addMissing] at h
    rcases ih _ m s h with h2 | h2
    · by_cases hc : (List.lookup k res).isSome = true
      · rw [if_pos hc] at h2
        exact Or.inl h2
      · rw [if_neg hc] at h2
        by_cases hmk : m = k
        · subst hmk
          rw [lookup_cons_self] at h2
          exact Or.inr (Option.some.inj h2).symm
        · rw [lookup_cons_ne _ _ hmk] at h2
          exact Or.inl h2
    · exact Or.inr h2

theorem execRetryFrom_fail (exc : Option (List String))
    (body : Nat → Except Err Val) (errs : Nat → Err)
    (hb : ∀ j, body j = Except.error (errs j))
    (hrt : ∀ j, isRetryable exc (errs j) = true) :
    ∀ n i, 1 ≤ n →
      execRetryFrom exc body n i = (n, Except.error (errs (i + n - 1))) := by
  intro n
  induction n with
  | zero => intro i h; exact absurd h (by decide)
  | succ n ih =>
    intro i _
    cases n with
    | zero =>
      rw [execRetryFrom, hb i, Nat.add_sub_cancel]
    | succ m =>
      simp only [execRetryFrom, hb i, hrt i, if_true]
      rw [ih (i+1) (by omega)]
      have hidx : i + 1 + (m + 1) - 1 = i + (m + 1 + 1) - 1 := by omega
      rw [hidx]

theorem execRetryFrom_count_pos (exc : Option (List String))
    (body : Nat → Except Err Val) :
    ∀ n i, 1 ≤ n → 1 ≤ (execRetryFrom exc body n i).1 := by
  intro n
  induction n with
  | zero => intro i h; exact absurd h (by decide)
  | succ n ih =>
    intro i _
    cases n with
    | zero => rw [execRetryFrom]
    | succ m =>
      cases hb : body i with
      | ok v => simp [execRetryFrom, hb]
      | error e =>
        by_cases hr : isRetryable exc e = true
        · simp only [execRetryFrom, hb, hr, if_true]
          omega
        · simp only [execRetryFrom, hb]
          rw [if_neg hr]

theorem execRetry_fail (attempts : Nat) (exc : Option (List String))
    (body : Nat → Except Err Val) (errs : Nat → Err) (h1 : 1 ≤ attempts)
    (hb : ∀ j, body j = Except.error (errs j))
    (hrt : ∀ j, isRetryable exc (errs j) = true) :
    execRetry attempts exc body = (attempts, Except.error (errs (attempts - 1))) := by
  rw [execRetry, execRetryFrom_fail exc body errs hb hrt attempts 0 h1,
    Nat.zero_add]

theorem execNode_fail (node : Node) (kwargs : List (String × Val))
    (errs : Nat → Err) (h1 : 1 ≤ node.attempts)
    (hd : node.use_default = false)
    (hb : ∀ j, node.body j kwargs = Except.error (errs j))
    (hrt : ∀ j, isRetryable node.exceptions (errs j) = true) :
    execNode node kwargs =
      (node.attempts, NStat.err (errs (node.attempts - 1))) := by
  rw [execNode, execRetry_fail node.attempts node.exceptions _ errs h1 hb hrt]
  simp [hd]

theorem execNode_default (node : Node) (kwargs : List (String × Val))
    (errs : Nat → Err) (h1 : 1 ≤ node.attempts)
    (hd : node.use_default = true)
    (hb : ∀ j, node.body j kwargs = Except.error (errs j))
    (hrt : ∀ j, isRetryable node.exceptions (errs j) = true) :
    execNode node kwargs =
      (node.attempts, NStat.ok (node.get_default kwargs)) := by
  rw [execNode, execRetry_fail node.attempts node.exceptions _ errs h1 hb hrt]
  simp [hd]

theorem recurLoop_cont (runSub : Nat → Option Val → IterOut)
    (init : Option Val)
    (hc : ∀ i d, ((runSub i d).next).isSome = true) :
    ∀ rem i, 1 ≤ rem →
      recurLoop runSub rem i (threadData runSub init i) =
        (i + rem,
          (runSub (i + rem - 1) (threadData runSub init (i + rem - 1))).value) := by
  intro rem
  induction rem with
  | zero => intro i h; exact absurd h (by decide)
  | succ rem ih =>
    intro i _
    cases rem with
    | zero =>
      obtain ⟨rc, hrc⟩ := Option.isSome_iff_exists.mp (hc i (threadData runSub init i))
      rw [recurLoop]
      simp only [hrc, Nat.add_sub_cancel]
    | succ m =>
      obtain ⟨rc, hrc⟩ := Option.isSome_iff_exists.mp (hc i (threadData runSub init i))
      rw [recurLoop]
      simp only [hrc]
      have hdata : rc.data = threadData runSub init (i + 1) := by
        rw [threadData, hrc]
      rw [hdata, ih (i+1) (by omega)]
      have h1 : i + 1 + (m + 1) = i + (m + 1 + 1) := by omega
      rw [h1]

theorem tryCands_append {r : NodeId → RunState → NStat × RunState} :
    ∀ (pre : List NodeId) (st : RunState) (b : NodeId) (v : Val)
      (st2 : RunState),
      (tryCands r pre st).1 = none →
      r b ((tryCands r pre st).2.2) = (NStat.ok v, st2) →
      ∀ (post : List NodeId),
        tryCands r (pre ++ b :: post) st =
          (some v, (tryCands r pre st).2.1 ++ [(b, NStat.ok v)], st2) := by
  intro pre
  induction pre with
  | nil =>
    intro st b v st2 _ hb post
    have hb' : r b st = (NStat.ok v, st2) := hb
    rw [List.nil_append]
    simp only [tryCands, hb']
    rfl
  | cons c pre ih =>
    intro st b v st2 hnone hb post
    rw [List.cons_append]
    simp only [tryCands] at hnone hb ⊢
    cases hc : (r c st).1 with
    | ok w =>
      rw [hc] at hnone
      exact absurd (show (some w : Option Val) = none from hnone) (by simp)
    | err e =>
      rw [hc] at hnone hb
      have hnone' : (tryCands r pre (r c st).2).1 = none := hnone
      have hb' : r b ((tryCands r pre (r c st).2).2.2) = (NStat.ok v, st2) := hb
      have hmain := ih (r c st).2 b v st2 hnone' hb' post
      rw [hmain]
      simp [List.cons_append]
    | skipped =>
      rw [hc] at hnone hb
      have hnone' : (tryCands r pre (r c st).2).1 = none := hnone
      have hb' : r b ((tryCands r pre (r c st).2).2.2) = (NStat.ok v, st2) := hb
      have hmain := ih (r c st).2 b v st2 hnone' hb' post
      rw [hmain]
      simp [List.cons_append]
    | noval =>
      rw [hc] at hnone hb
      have hnone' : (tryCands r pre (r c st).2).1 = none := hnone
      have hb' : r b ((tryCands r pre (r c st).2).2.2) = (NStat.ok v, st2) := hb
      have hmain := ih (r c st).2 b v st2 hnone' hb' post
      rw [hmain]
      simp [List.cons_append]

/-- C10: for every `PipelineResult` `r`, `raise_on_error` raises exactly the
    stored exception `r.error` when it is set and returns normally with no
    effect when it is `None`; the record itself is frozen, so `r` is
    unchanged in both cases. -/
theorem raise_on_error_exact (r : PipelineResult) :
    (∀ e, r.error = some e → r.raise_on_error = Except.error e) ∧
    (r.error = none → r.raise_on_error = Except.ok ()) := by
  constructor
  · intro e he
    rw [PipelineResult.raise_on_error, he]
  · intro he
    rw [PipelineResult.raise_on_error, he]

theorem raise_on_error_exact_witness :
    (PipelineResult.mk "p" none (some ⟨"Exception", "boom"⟩)).error =
      some ⟨"Exception", "boom"⟩ ∧
    (PipelineResult.mk "p" none (some ⟨"Exception", "boom"⟩)).raise_on_error =
      Except.error ⟨"Exception", "boom"⟩ ∧
    (PipelineResult.mk "q" (some Val.vNone) none).raise_on_error =
      Except.ok () :=
  ⟨rfl, (raise_on_error_exact _).1 _ rfl, (raise_on_error_exact _).2 rfl⟩

/-- C1: every pipeline result has exactly one of value/error non-empty —
    whenever `error` is set, `value` is `None`, and whenever the run
    succeeds (`error = None`), `value` is set. -/
theorem pipeline_result_value_error_exclusive (g : Graph) (fuel : Nat)
    (pid : String) (ikw : List (String × Val)) :
    (∀ e, (chartRun g fuel pid ikw).error = some e →
      (chartRun g fuel pid ikw).value = none) ∧
    ((chartRun g fuel pid ikw).error = none →
      ∃ v, (chartRun g fuel pid ikw).value = some v) := by
  rw [chartRun]
  cases (chartRunState g fuel ikw).1 with
  | ok v => exact ⟨fun e he => Option.noConfusion he, fun _ => ⟨v, rfl⟩⟩
  | err e => exact ⟨fun _ _ => rfl, fun he => Option.noConfusion he⟩
  | skipped => exact ⟨fun _ _ => rfl, fun he => Option.noConfusion he⟩
  | noval => exact ⟨fun _ _ => rfl, fun he => Option.noConfusion he⟩

theorem pipeline_result_value_error_exclusive_witness :
    (chartRun (singleGraph
        (mkNode (fun _ _ => Except.error ⟨"Exception", "boom"⟩) [])) 3 "p"
        []).error = some ⟨"Exception", "boom"⟩ ∧
    (chartRun (singleGraph
        (mkNode (fun _ _ => Except.error ⟨"Exception", "boom"⟩) [])) 3 "p"
        []).value = none :=
  ⟨rfl,
   (pipeline_result_value_error_exclusive
      (singleGraph (mkNode (fun _ _ => Except.error ⟨"Exception", "boom"⟩) []))
      3 "p" []).1 _ rfl⟩

/-- C4: `Chart.run` always returns a `PipelineResult` and never raises —
    the outcome is either a success carrying a value and no error, or a
    failure carrying `value = None` and the failure delivered through the
    `error` field; in particular a failed terminal resolution surfaces as
    exactly that error. -/
theorem chart_run_total_outcome (g : Graph) (fuel : Nat) (pid : String)
    (ikw : List (String × Val)) :
    ((∃ v, chartRun g fuel pid ikw = ⟨pid, some v, none⟩) ∨
      (∃ e, chartRun g fuel pid ikw = ⟨pid, none, some e⟩)) ∧
    (∀ e, (chartRunState g fuel ikw).1 = NStat.err e →
      chartRun g fuel pid ikw = ⟨pid, none, some e⟩) := by
  constructor
  · rw [chartRun]
    cases (chartRunState g fuel ikw).1 with
    | ok v => exact Or.inl ⟨v, rfl⟩
    | err e => exact Or.inr ⟨e, rfl⟩
    | skipped => exact Or.inr ⟨_, rfl⟩
    | noval => exact Or.inr ⟨_, rfl⟩
  · intro e h
    rw [chartRun, h]

theorem chart_run_total_outcome_witness :
    (chartRunState (singleGraph
        (mkNode (fun _ _ => Except.error ⟨"Exception", "boom"⟩) [])) 3
        []).1 = NStat.err ⟨"Exception", "boom"⟩ ∧
    chartRun (singleGraph
        (mkNode (fun _ _ => Except.error ⟨"Exception", "boom"⟩) [])) 3 "p" [] =
      ⟨"p", none, some ⟨"Exception", "boom"⟩⟩ :=
  ⟨rfl,
   (chart_run_total_outcome
      (singleGraph (mkNode (fun _ _ => Except.error ⟨"Exception", "boom"⟩) []))
      3 "p" []).2 _ rfl⟩

/-- C7: a recurrent node with `max_iterations = K` whose body signals
    continuation on every iteration re-executes the sub-graph until the
    iteration counter reaches `K`, terminates after exactly `K` iterations,
    and resolves to the last produced value. -/
theorem recurrent_max_iterations (K : Nat) (init : Option Val)
    (runSub : Nat → Option Val → IterOut) (h1 : 1 ≤ K)
    (hc : ∀ i d, ((runSub i d).next).isSome = true) :
    recurrentResolve K init runSub =
      (K, (runSub (K - 1) (threadData runSub init (K - 1))).value) := by
  rw [recurrentResolve]
  have hloop := recurLoop_cont runSub init hc K 0 h1
  rw [show threadData runSub init 0 = init from rfl] at hloop
  rw [hloop]
  rw [Nat.zero_add]

theorem recurrent_max_iterations_witness :
    (1 ≤ 3 ∧
      (∀ i d, (((fun (i : Nat) (_ : Option Val) =>
        IterOut.mk (Val.vInt i) (some ⟨some (Val.vInt i)⟩)) i d).next).isSome
          = true)) ∧
    recurrentResolve 3 none
      (fun (i : Nat) (_ : Option Val) =>
        IterOut.mk (Val.vInt i) (some ⟨some (Val.vInt i)⟩)) = (3, Val.vInt 2) :=
  ⟨⟨by decide, fun _ _ => rfl⟩, by
    rw [recurrent_max_iterations 3 none
      (fun (i : Nat) (_ : Option Val) =>
        IterOut.mk (Val.vInt i) (some ⟨some (Val.vInt i)⟩))
      (by decide) (fun _ _ => rfl)]
    rfl⟩

/-- C8: when a node's retry configuration leaves the retryable exception
    set unspecified, every exception counts as retryable and the driver
    re-invokes the body after a first-attempt failure of any exception
    while attempts remain. -/
theorem retry_unspecified_exceptions_retries_all :
    (∀ e : Err, isRetryable none e = true) ∧
    (∀ (body : Nat → Except Err Val) (e : Err) (n : Nat),
      body 0 = Except.error e →
      2 ≤ (execRetry (n + 2) none body).1) := by
  constructor
  · intro e; rfl
  · intro body e n hb
    rw [execRetry, execRetryFrom]
    simp only [hb]
    rw [if_pos (show isRetryable none e = true from rfl)]
    have hcount := execRetryFrom_count_pos none body (n+1) (0+1) (by omega)
    omega

theorem retry_unspecified_exceptions_retries_all_witness :
    ((fun _ : Nat => (Except.error ⟨"ValueError", ""⟩ : Except Err Val)) 0 =
      Except.error ⟨"ValueError", ""⟩) ∧
    isRetryable none (⟨"ValueError", ""⟩ : Err) = true ∧
    2 ≤ (execRetry (0 + 2) none
      (fun _ => Except.error ⟨"ValueError", ""⟩)).1 :=
  ⟨rfl, retry_unspecified_exceptions_retries_all.1 _,
    retry_unspecified_exceptions_retries_all.2 _ _ 0 rfl⟩

/-- C2: a node configured with `attempts = N` whose body raises a retryable
    exception on every invocation is invoked exactly `N` times during one
    run, and the pipeline result's error equals the exception raised by the
    `N`-th (last) invocation.  The first conjunct states the retry driver
    fact for every node; the remaining conjuncts run such a node as a
    pipeline. -/
theorem retry_exhaustion_invocations_and_error
    (node : Node) (pid : String) (ikw : List (String × Val))
    (errs : Nat → Err) (fuel : Nat)
    (h1 : 1 ≤ node.attempts)
    (hh : node.is_oneof_head = false)
    (hreq : node.required = [])
    (hd : node.use_default = false)
    (hb : ∀ j, node.body j ikw = Except.error (errs j))
    (hrt : ∀ j, isRetryable node.exceptions (errs j) = true) :
    execRetry node.attempts node.exceptions (fun j => node.body j ikw) =
      (node.attempts, Except.error (errs (node.attempts - 1))) ∧
    chartRun (singleGraph node) (fuel+1) pid ikw =
      ⟨pid, none, some (errs (node.attempts - 1))⟩ ∧
    List.count "n" ((chartRunState (singleGraph node) (fuel+1) ikw).2).invoked =
      node.attempts := by
  have hretry := execRetry_fail node.attempts node.exceptions
    (fun j => node.body j ikw) errs h1 hb hrt
  have hexec := execNode_fail node ikw errs h1 hd hb hrt
  have hres : resolve (fuel+1) (singleGraph node) ikw "n" ⟨[], []⟩ =
      (NStat.err (errs (node.attempts - 1)),
        ⟨[("n", NStat.err (errs (node.attempts - 1)))],
         List.replicate node.attempts "n"⟩) := by
    rw [resolve, resolveStep]
    simp only [show findNode (singleGraph node) "n" = some node from rfl, hh,
      Bool.false_eq_true, if_false]
    rw [if_neg (by simp [incoming, singleGraph])]
    rw [show stepKwargs (singleGraph node) ikw
      (resolve fuel (singleGraph node) ikw) "n" ⟨[], []⟩ = ikw from rfl]
    rw [if_neg (by simp [missingRequired, hreq])]
    rw [hexec]
    rfl
  refine ⟨hretry, ?_, ?_⟩
  · rw [chartRun]
    simp only [chartRunState,
      show (singleGraph node).output_node = "n" from rfl]
    rw [hres]
  · simp only [chartRunState,
      show (singleGraph node).output_node = "n" from rfl]
    rw [hres]
    simp only [markUnreached]
    exact List.count_replicate_self "n" node.attempts

theorem retry_exhaustion_invocations_and_error_witness :
    1 ≤ (3 : Nat) ∧
    chartRun (singleGraph (Node.mk
        (fun j _ => Except.error (if j = 2 then (⟨"Exception", "CustomError"⟩ : Err)
          else ⟨"Exception", ""⟩))
        [] 3 0 none false (fun _ => Val.vNone) false false [])) 9 "p" [] =
      ⟨"p", none, some ⟨"Exception", "CustomError"⟩⟩ ∧
    List.count "n" ((chartRunState (singleGraph (Node.mk
        (fun j _ => Except.error (if j = 2 then (⟨"Exception", "CustomError"⟩ : Err)
          else ⟨"Exception", ""⟩))
        [] 3 0 none false (fun _ => Val.vNone) false false [])) 9 []).2).invoked
      = 3 :=
  ⟨by decide,
   (retry_exhaustion_invocations_and_error (Node.mk
        (fun j _ => Except.error (if j = 2 then (⟨"Exception", "CustomError"⟩ : Err)
          else ⟨"Exception", ""⟩))
        [] 3 0 none false (fun _ => Val.vNone) false false []) "p" []
      (fun j => if j = 2 then (⟨"Exception", "CustomError"⟩ : Err)
        else ⟨"Exception", ""⟩) 8
      (by decide) rfl rfl rfl (fun _ => rfl) (fun _ => rfl)).2.1,
   (retry_exhaustion_invocations_and_error (Node.mk
        (fun j _ => Except.error (if j = 2 then (⟨"Exception", "CustomError"⟩ : Err)
          else ⟨"Exception", ""⟩))
        [] 3 0 none false (fun _ => Val.vNone) false false []) "p" []
      (fun j => if j = 2 then (⟨"Exception", "CustomError"⟩ : Err)
        else ⟨"Exception", ""⟩) 8
      (by decide) rfl rfl rfl (fun _ => rfl) (fun _ => rfl)).2.2⟩

theorem execNode_count_pos (node : Node) (kwargs : List (String × Val))
    (h1 : 1 ≤ node.attempts) : 1 ≤ (execNode node kwargs).1 := by
  simp only [execNode]
  cases hr : (execRetry node.attempts node.exceptions fun i => node.body i kwargs).2 with
  | ok v =>
    have := execRetryFrom_count_pos node.exceptions
      (fun i => node.body i kwargs) node.attempts 0 h1
    simpa [execRetry, hr] using this
  | error e =>
    have := execRetryFrom_count_pos node.exceptions
      (fun i => node.body i kwargs) node.attempts 0 h1
    by_cases hd : node.use_default
    · simpa [execRetry, hr, hd] using this
    · simpa [execRetry, hr, hd] using this

/-- C9: a node with `use_default` set whose body keeps failing resolves,
    after attempts are exhausted, to the value returned by its
    default-value provider applied to the original invocation arguments,
    instead of becoming FAILED; execution then proceeds to its dependents
    (the dependent's body is invoked with the default value). -/
theorem retry_use_default_resolves_and_proceeds
    (a b : Node) (ikw : List (String × Val)) (errs : Nat → Err) (fuel : Nat)
    (ha1 : 1 ≤ a.attempts) (hah : a.is_oneof_head = false)
    (hareq : a.required = []) (had : a.use_default = true)
    (hab : ∀ j, a.body j ikw = Except.error (errs j))
    (hart : ∀ j, isRetryable a.exceptions (errs j) = true)
    (hbh : b.is_oneof_head = false) (hbreq : b.required = ["x"])
    (hb1 : 1 ≤ b.attempts) :
    execNode a ikw = (a.attempts, NStat.ok (a.get_default ikw)) ∧
    List.lookup "a" ((chartRunState (twoGraph a b) (fuel+2) ikw).2).results =
      some (NStat.ok (a.get_default ikw)) ∧
    "b" ∈ ((chartRunState (twoGraph a b) (fuel+2) ikw).2).invoked := by
  have hexa := execNode_default a ikw errs ha1 had hab hart
  have hresa : resolve (fuel+1) (twoGraph a b) ikw "a" ⟨[], []⟩ =
      (NStat.ok (a.get_default ikw),
        ⟨[("a", NStat.ok (a.get_default ikw))],
         List.replicate a.attempts "a"⟩) := by
    rw [resolve, resolveStep]
    simp only [show findNode (twoGraph a b) "a" = some a from rfl, hah,
      Bool.false_eq_true, if_false]
    rw [if_neg (by simp [incoming, twoGraph])]
    rw [show stepKwargs (twoGraph a b) ikw
      (resolve fuel (twoGraph a b) ikw) "a" ⟨[], []⟩ = ikw from rfl]
    rw [if_neg (by simp [missingRequired, hareq])]
    rw [hexa]
    rfl
  have hresb : resolve (fuel+2) (twoGraph a b) ikw "b" ⟨[], []⟩ =
      ((execNode b [("x", a.get_default ikw)]).2,
        ⟨("b", (execNode b [("x", a.get_default ikw)]).2) ::
           [("a", NStat.ok (a.get_default ikw))],
         List.replicate a.attempts "a" ++
           List.replicate (execNode b [("x", a.get_default ikw)]).1 "b"⟩) := by
    rw [show fuel + 2 = (fuel + 1) + 1 from rfl, resolve, resolveStep]
    simp only [show findNode (twoGraph a b) "b" = some b from rfl, hbh,
      Bool.false_eq_true, if_false]
    simp only [show incoming (twoGraph a b) "b" =
      [⟨"a", "b", "x", false, none⟩] from rfl]
    simp only [resolveEdges, hresa]
    rw [if_neg (by simp [liveEdges, edgeDeadP, resolveEdges, hresa])]
    simp only [liveEdges, resolveEdges, hresa]
    rw [if_neg (by simp [missingRequired, hbreq, stepKwargs, gatherKwargs,
      liveEdges, resolveEdges, hresa, edgeDeadP,
      show (twoGraph a b).input_node = "a" from rfl])]
    simp only [stepKwargs, gatherKwargs, liveEdges, resolveEdges, hresa]
    rfl
  refine ⟨hexa, ?_, ?_⟩
  · simp only [chartRunState,
      show (twoGraph a b).output_node = "b" from rfl]
    rw [hresb]
    apply addMissing_ext
    rw [lookup_cons_ne _ _ (by decide)]
    exact lookup_cons_self _ _ _
  · simp only [chartRunState,
      show (twoGraph a b).output_node = "b" from rfl]
    rw [hresb]
    simp only [markUnreached]
    have hkb := execNode_count_pos b [("x", a.get_default ikw)] hb1
    apply List.mem_append.mpr
    apply Or.inr
    apply List.mem_replicate.mpr
    exact ⟨by omega, rfl⟩

theorem retry_use_default_resolves_and_proceeds_witness :
    1 ≤ (2 : Nat) ∧
    execNode (Node.mk (fun _ _ => Except.error ⟨"Exception", ""⟩) [] 2 0 none
        true (fun _ => Val.vInt 7) false false []) [] =
      (2, NStat.ok (Val.vInt 7)) ∧
    List.lookup "a" ((chartRunState (twoGraph
        (Node.mk (fun _ _ => Except.error ⟨"Exception", ""⟩) [] 2 0 none
          true (fun _ => Val.vInt 7) false false [])
        (mkNode (fun _ _ => Except.ok Val.vNone) ["x"])) 2 []).2).results =
      some (NStat.ok (Val.vInt 7)) ∧
    "b" ∈ ((chartRunState (twoGraph
        (Node.mk (fun _ _ => Except.error ⟨"Exception", ""⟩) [] 2 0 none
          true (fun _ => Val.vInt 7) false false [])
        (mkNode (fun _ _ => Except.ok Val.vNone) ["x"])) 2 []).2).invoked :=
  ⟨by decide,
   (retry_use_default_resolves_and_proceeds
      (Node.mk (fun _ _ => Except.error ⟨"Exception", ""⟩) [] 2 0 none
        true (fun _ => Val.vInt 7) false false [])
      (mkNode (fun _ _ => Except.ok Val.vNone) ["x"]) []
      (fun _ => ⟨"Exception", ""⟩) 0
      (by decide) rfl rfl rfl (fun _ => rfl) (fun _ => rfl) rfl rfl
      (by decide)).1,
   (retry_use_default_resolves_and_proceeds
      (Node.mk (fun _ _ => Except.error ⟨"Exception", ""⟩) [] 2 0 none
        true (fun _ => Val.vInt 7) false false [])
      (mkNode (fun _ _ => Except.ok Val.vNone) ["x"]) []
      (fun _ => ⟨"Exception", ""⟩) 0
      (by decide) rfl rfl rfl (fun _ => rfl) (fun _ => rfl) rfl rfl
      (by decide)).2.1,
   (retry_use_default_resolves_and_proceeds
      (Node.mk (fun _ _ => Except.error ⟨"Exception", ""⟩) [] 2 0 none
        true (fun _ => Val.vInt 7) false false [])
      (mkNode (fun _ _ => Except.ok Val.vNone) ["x"]) []
      (fun _ => ⟨"Exception", ""⟩) 0
      (by decide) rfl rfl rfl (fun _ => rfl) (fun _ => rfl) rfl rfl
      (by decide)).2.2⟩

/-- C5: a one-of head with ordered candidate list `pre ++ b :: post`, where
    every candidate in `pre` fails and `b` completes successfully with
    value `v`, resolves to `v` — the value of the first candidate in
    declared order that completes successfully.  The candidates in `post`
    are not required to run: the resolution output and state equal those
    obtained after `b` alone, so nothing of `post` is evaluated and any
    results they might produce are discarded.  The second conjunct runs the
    head through the scheduler itself. -/
theorem oneof_first_success_resolution
    (r : NodeId → RunState → NStat × RunState)
    (pre post : List NodeId) (st st2 : RunState) (b : NodeId) (v : Val)
    (hpre : (tryCands r pre st).1 = none)
    (hb : r b ((tryCands r pre st).2.2) = (NStat.ok v, st2)) :
    tryCands r (pre ++ b :: post) st =
      (some v, (tryCands r pre st).2.1 ++ [(b, NStat.ok v)], st2) ∧
    (∀ (g : Graph) (ikw : List (String × Val)) (fuel : Nat) (hd : NodeId)
      (node : Node),
      r = resolve fuel g ikw →
      List.lookup hd st.results = none →
      findNode g hd = some node →
      node.is_oneof_head = true →
      node.oneof_nodes = pre ++ b :: post →
      List.lookup hd st2.results = none →
      resolve (fuel+1) g ikw hd st =
        (NStat.ok v, memoState st2 hd (NStat.ok v))) := by
  have hmain := tryCands_append pre st b v st2 hpre hb post
  refine ⟨hmain, ?_⟩
  intro g ikw fuel hd node hr hlk0 hfind hHead hcands hlk2
  subst hr
  rw [resolve, resolveStep]
  simp only [hlk0, hfind]
  rw [if_pos hHead, hcands, hmain]
  show finishWith st2 hd (NStat.ok v) = (NStat.ok v, memoState st2 hd (NStat.ok v))
  rw [finishWith, hlk2]

theorem oneof_first_success_resolution_witness :
    (tryCands (resolve 5 gOneOfOrder []) ["c1"] ⟨[], []⟩).1 = none ∧
    tryCands (resolve 5 gOneOfOrder []) (["c1"] ++ "c2" :: ["c3"]) ⟨[], []⟩ =
      (some (Val.vInt 5),
        (tryCands (resolve 5 gOneOfOrder []) ["c1"] ⟨[], []⟩).2.1 ++
          [("c2", NStat.ok (Val.vInt 5))],
        (resolve 5 gOneOfOrder [] "c2"
          ((tryCands (resolve 5 gOneOfOrder []) ["c1"] ⟨[], []⟩).2.2)).2) ∧
    resolve 6 gOneOfOrder [] "h" ⟨[], []⟩ =
      (NStat.ok (Val.vInt 5),
        memoState (resolve 5 gOneOfOrder [] "c2"
          ((tryCands (resolve 5 gOneOfOrder []) ["c1"] ⟨[], []⟩).2.2)).2 "h"
          (NStat.ok (Val.vInt 5))) :=
  ⟨rfl,
   (oneof_first_success_resolution (resolve 5 gOneOfOrder []) ["c1"] ["c3"]
      ⟨[], []⟩ _ "c2" (Val.vInt 5) rfl rfl).1,
   (oneof_first_success_resolution (resolve 5 gOneOfOrder []) ["c1"] ["c3"]
      ⟨[], []⟩ _ "c2" (Val.vInt 5) rfl rfl).2 gOneOfOrder [] 5 "h"
      (mkHead ["c1", "c2", "c3"]) rfl rfl rfl rfl rfl rfl⟩

theorem missingRequired_nil (node : Node) (kw : String)
    (hkw : kw ∈ node.required) : missingRequired node [] = true := by
  rw [missingRequired]
  exact List.any_eq_true.mpr ⟨kw, hkw, rfl⟩

/-- C3: when every candidate of a one-of head fails, the head resolves to
    no value; a consumer that mandatorily requires the head's value then
    fails with the missing-input type-contract error — an error built from
    the consumer alone (kind `"TypeError"`), not any candidate's original
    exception — and the pipeline result carries `value = None` and exactly
    that error. -/
theorem oneof_all_failed_consumer_type_error
    (g : Graph) (fuel : Nat) (pid : String) (ikw : List (String × Val))
    (consumer hd : NodeId) (cnode : Node) (e : Edge) (st1 : RunState)
    (kw : String)
    (hout : g.output_node = consumer)
    (hfind : findNode g consumer = some cnode)
    (hch : cnode.is_oneof_head = false)
    (hinc : incoming g consumer = [e])
    (hesrc : e.src = hd)
    (hreq : kw ∈ cnode.required)
    (hnotin : consumer ≠ g.input_node)
    (hhead : resolve fuel g ikw hd ⟨[], []⟩ = (NStat.noval, st1))
    (hlk1 : List.lookup consumer st1.results = none) :
    chartRun g (fuel+1) pid ikw =
      ⟨pid, none, some (missingInputErr consumer)⟩ ∧
    (missingInputErr consumer).kind = "TypeError" := by
  have hkw0 : stepKwargs g ikw (resolve fuel g ikw) consumer ⟨[], []⟩ = [] := by
    rw [stepKwargs,
      if_neg (ne_true_of_eq_false (beq_false_of_ne hnotin))]
    rw [gatherKwargs, liveEdges, hinc]
    simp only [resolveEdges, hesrc, hhead]
    rfl
  have hres : resolve (fuel+1) g ikw consumer ⟨[], []⟩ =
      (NStat.err (missingInputErr consumer),
        memoState st1 consumer (NStat.err (missingInputErr consumer))) := by
    rw [resolve, resolveStep]
    simp only [show (List.lookup consumer
      (RunState.mk ([] : List (NodeId × NStat)) ([] : List NodeId)).results) =
      (none : Option NStat) from rfl, hfind]
    rw [if_neg (by rw [hch]; exact Bool.false_ne_true)]
    rw [if_neg (by simp [liveEdges, hinc, resolveEdges, hesrc, hhead,
      edgeDeadP])]
    have hfe : firstErr (liveEdges (resolve fuel g ikw) g consumer
        ⟨[], []⟩) = none := by
      rw [liveEdges, hinc]
      simp only [resolveEdges, hesrc, hhead]
      rfl
    simp only [hfe]
    rw [hkw0, if_pos (missingRequired_nil cnode kw hreq)]
    have hst : (resolveEdges (resolve fuel g ikw) (incoming g consumer)
        ⟨[], []⟩).2 = st1 := by
      rw [hinc]
      simp only [resolveEdges, hesrc, hhead]
    rw [hst, finishWith, hlk1]
  constructor
  · rw [chartRun]
    simp only [chartRunState, hout]
    rw [hres]
  · rfl

theorem oneof_all_failed_consumer_type_error_witness :
    resolve 6 gOneOfFails [] "oneof" ⟨[], []⟩ =
      (NStat.noval, (resolve 6 gOneOfFails [] "oneof" ⟨[], []⟩).2) ∧
    chartRun gOneOfFails 7 "p" [] =
      ⟨"p", none, some (missingInputErr "vectorizer")⟩ ∧
    (missingInputErr "vectorizer").kind = "TypeError" :=
  ⟨rfl,
   (oneof_all_failed_consumer_type_error gOneOfFails 6 "p" [] "vectorizer"
      "oneof" (mkNode (fun _ _ => Except.ok Val.vNone) ["feature_value"])
      ⟨"oneof", "vectorizer", "feature_value", false, none⟩
      (resolve 6 gOneOfFails [] "oneof" ⟨[], []⟩).2 "feature_value"
      rfl rfl rfl rfl rfl (by decide) (by decide) rfl rfl).1,
   (oneof_all_failed_consumer_type_error gOneOfFails 6 "p" [] "vectorizer"
      "oneof" (mkNode (fun _ _ => Except.ok Val.vNone) ["feature_value"])
      ⟨"oneof", "vectorizer", "feature_value", false, none⟩
      (resolve 6 gOneOfFails [] "oneof" ⟨[], []⟩).2 "feature_value"
      rfl rfl rfl rfl rfl (by decide) (by decide) rfl rfl).2⟩

/-- C6: in any run, a node reachable exclusively through switch edges whose
    case-branch labels differ from the `CaseResult` labels the switch nodes
    actually produced (`DeadAt`: the pruning recursion of the scheduler,
    which stops at any node also reachable via a live path) is never
    invoked, and ends the run marked `SKIPPED`. -/
theorem switch_pruning_never_invoked (g : Graph) (fuel : Nat)
    (ikw : List (String × Val)) (n : NodeId) (hwf : WFGraph g)
    (hdead : DeadAt g ((chartRunState g fuel ikw).2).results n) :
    n ∉ ((chartRunState g fuel ikw).2).invoked ∧
    (n ∈ keys g →
      List.lookup n ((chartRunState g fuel ikw).2).results =
        some NStat.skipped) := by
  have hgood := resolve_good g ikw hwf fuel
  have hinv0 : RunInv g ⟨[], []⟩ :=
    ⟨fun m hm => absurd hm (List.not_mem_nil m),
     fun m s hlk _ => Option.noConfusion hlk⟩
  have hinv := (hgood g.output_node ⟨[], []⟩).2.2 hinv0
  have hst : (chartRunState g fuel ikw).2 =
      markUnreached g (resolve fuel g ikw g.output_node ⟨[], []⟩).2 := rfl
  rw [hst] at hdead ⊢
  set stf := (resolve fuel g ikw g.output_node ⟨[], []⟩).2 with hstf
  have hext : ResExt stf.results (markUnreached g stf).results :=
    addMissing_ext (keys g) stf.results
  constructor
  · intro hm
    have hm' : n ∈ stf.invoked := hm
    obtain ⟨s, hlk, hrun⟩ := hinv.1 n hm'
    have hlive := hinv.2 n s hlk (isRunStat_ne_skipped hrun)
    exact liveAt_not_deadAt (liveAt_mono hext hlive) hdead
  · intro hkey
    obtain ⟨s, hlk⟩ := addMissing_covers (keys g) stf.results n hkey
    rcases addMissing_new_skipped (keys g) stf.results n s hlk with h2 | h2
    · by_cases hsk : s = NStat.skipped
      · rw [hsk] at hlk
        exact hlk
      · have hlive := hinv.2 n s h2 hsk
        exact absurd hdead (liveAt_not_deadAt (liveAt_mono hext hlive))
    · rw [h2] at hlk
      exact hlk

theorem switch_pruning_never_invoked_witness :
    WFGraph gSwitch ∧
    DeadAt gSwitch ((chartRunState gSwitch 9 []).2).results "y" ∧
    "y" ∉ ((chartRunState gSwitch 9 []).2).invoked ∧
    List.lookup "y" ((chartRunState gSwitch 9 []).2).results =
      some NStat.skipped := by
  have hwf : WFGraph gSwitch := by
    constructor
    · decide
    · intro p hp
      fin_cases hp
      · intro hhead; exact absurd hhead (by decide)
      · intro hhead; exact absurd hhead (by decide)
      · intro hhead; exact absurd hhead (by decide)
      · intro hhead; exact absurd hhead (by decide)
      · intro _; exact ⟨by decide, by decide⟩
      · intro hhead; exact absurd hhead (by decide)
  have hdead : DeadAt gSwitch ((chartRunState gSwitch 9 []).2).results "y" := by
    refine DeadAt.mk "y" (by decide) ?_
    intro e he hnm
    exfalso
    apply hnm
    have hinc : incoming gSwitch "y" = [⟨"s", "y", "sw", true, some "b"⟩] := by
      decide
    rw [hinc] at he
    have he' : e = ⟨"s", "y", "sw", true, some "b"⟩ :=
      List.eq_of_mem_singleton he
    subst he'
    exact ⟨rfl, "b", ⟨"a", "x"⟩, rfl, by decide, by decide⟩
  exact ⟨hwf, hdead,
    (switch_pruning_never_invoked gSwitch 9 [] "y" hwf hdead).1,
    (switch_pruning_never_invoked gSwitch 9 [] "y" hwf hdead).2 (by decide)⟩
